import Mathlib

/-!
Verification of the bitwise-AND lookup circuit (`src/main.rs`).

The program is a halo2 circuit proving that a public value equals the
bitwise AND of two private `WORD_BITS`-wide words.  Field elements of the
Pasta base field `Fp` are embedded as canonical natural numbers below the
modulus `P`; field addition is addition `% P`.  The constraint system
declared by `AndChip::configure` is embedded as a small expression language
(`GateExpr`) whose three gate polynomials and two lookup inputs are
transcribed from `create_gate` / `meta.lookup`.  A satisfying assignment of
the nine regions laid down by `MyCircuit::synthesize` is a record of one
value per equality class of cells (`Assignment`); the mock-prover check is
the conjunction `globalOk` of every selector-enabled gate row, every
lookup row and the single instance equality.  The witness computations of
`load_private` / `add` / `verify_decompose` / `compose` are embedded twice:
once as pure value functions used to build the honest assignment, and once
as an `Except`-monadic pass (`AndChip.synthesize`) that models the
propagation of the `Error::Synthesis` witness-absence signal.
-/

/-- Word width of the circuit, `const WORD_BITS: u32 = 8` (src/main.rs:14). -/
def WORD_BITS : Nat := 8

/-- Modulus of the Pasta base field `Fp` (`pasta_curves::Fp`): field elements
are canonically the naturals below `P`. -/
def P : Nat := 0x40000000000000000000000000000000224698fc094cf91b992d30ed00000001

/-- The 32-byte mask `0b01010101` repeated over every byte of an `Fp`
representation, as applied byte-wise in `decompose` (src/main.rs:472-474). -/
def EVEN_MASK : Nat := 0x5555555555555555555555555555555555555555555555555555555555555555

/-- The 32-byte mask `0b10101010` repeated over every byte of an `Fp`
representation, as applied byte-wise in `decompose` (src/main.rs:476-479). -/
def ODD_MASK : Nat := 0xAAAAAAAAAAAAAAAAAAAAAAAAAAAAAAAAAAAAAAAAAAAAAAAAAAAAAAAAAAAAAAAA

/-- Field addition on canonical representatives (`*a + *b` in `add`,
src/main.rs:282). -/
def fadd (x y : Nat) : Nat := (x + y) % P

/-- `Fp::from_repr`: converting little-endian bytes back to a field element
succeeds exactly when the byte value is a canonical (below-modulus)
representative. -/
def from_repr (n : Nat) : Option Nat := if n < P then some n else none

/-- `Fp::get_lower_128`: the low 128 bits of the canonical representative. -/
def get_lower_128 (n : Nat) : Nat := n % 2 ^ 128

/-- `Fp::from_u128`: the field element of a 128-bit integer (reduction is
vacuous for arguments below `P`). -/
def from_u128 (n : Nat) : Nat := n % P

/-- Witness computation `decompose` (src/main.rs:470-485): mask the canonical
byte representation with `0b01010101` (even bits, kept in place) and with
`0b10101010` (odd bits, then shifted right by one after truncation to the
low 128 bits); each masked representation is re-read with `from_repr` whose
failure (`unwrap` panic) is surfaced as `none`. -/
def decompose (word : Nat) : Option (Nat × Nat) :=
  let even_only := word &&& EVEN_MASK
  let odd_only := word &&& ODD_MASK
  match from_repr even_only, from_repr odd_only with
  | some e, some o => some (e, from_u128 (get_lower_128 o >>> 1))
  | _, _ => none

/-- Even component produced by `decompose` on a canonical input. -/
def decomposeE (w : Nat) : Nat := w &&& EVEN_MASK

/-- Odd component produced by `decompose` on a canonical input. -/
def decomposeO (w : Nat) : Nat := from_u128 (get_lower_128 (w &&& ODD_MASK) >>> 1)

/-- Witness computation of `compose` (src/main.rs:356-358):
`*a + Fp::from(2) * *b`. -/
def composeVal (x y : Nat) : Nat := (x + 2 * y) % P

/-- Loop body of `even_bits_at` (src/main.rs:192-205): while `i != 0`, add
`(i % 2) * 4^c` to `r`, halve `i` and increment `c`.  The first argument is
fuel, instantiated with the initial `i`, which bounds the number of
iterations (the loop runs at most `log2 i + 1 ≤ i` times for `i ≠ 0`). -/
def spreadLoop : Nat → Nat → Nat → Nat → Nat
  | 0, _, r, _ => r
  | fuel + 1, i, r, c =>
    if i = 0 then r else spreadLoop fuel (i >>> 1) (r + (i % 2) * 4 ^ c) (c + 1)

/-- `even_bits_at` (src/main.rs:192-205): spread the binary digits of `i`,
placing digit `k` at bit position `2k` of the result. -/
def even_bits_at (i : Nat) : Nat := spreadLoop i i 0 0

/-- The `even_bits` lookup table built by `alloc_table` (src/main.rs:174-189):
row `i` holds `even_bits_at i`, for `i` from `0` to `2^(WORD_BITS/2) - 1`. -/
def even_bits_table : List Nat := (List.range (2 ^ (WORD_BITS / 2))).map even_bits_at

/-- Membership in the `even_bits` lookup table, the check performed by the
mock prover for every lookup argument row. -/
def inTable (v : Nat) : Bool := even_bits_table.contains v

/-- Rotations used by the gates: `Rotation::cur()` and `Rotation::next()`. -/
inductive Rot where
  | cur : Rot
  | next : Rot

/-- Expression language of `ConstraintSystem`: the fragment used by
`AndChip::configure` (constants, advice queries, the gate selector, and
ring operations). -/
inductive GateExpr where
  | const : Nat → GateExpr
  | advice : Nat → Rot → GateExpr
  | sel : GateExpr
  | add : GateExpr → GateExpr → GateExpr
  | sub : GateExpr → GateExpr → GateExpr
  | mul : GateExpr → GateExpr → GateExpr

/-- Values visible to a gate at one row: the selector and the advice
columns at the queried rotations. -/
structure RegionEnv where
  sel : Nat
  adv : Nat → Rot → Nat

/-- Polynomial evaluation of a gate expression over the integers; the
constraint holds when the value vanishes modulo `P`. -/
def evalGE (env : RegionEnv) : GateExpr → Int
  | .const c => (c : Int)
  | .advice i r => (env.adv i r : Int)
  | .sel => (env.sel : Int)
  | .add a b => evalGE env a + evalGE env b
  | .sub a b => evalGE env a - evalGE env b
  | .mul a b => evalGE env a * evalGE env b

/-- The `add` gate polynomial `s_add * (lhs + rhs - out)`
(src/main.rs:106-118): `lhs = advice[0]@cur`, `rhs = advice[1]@cur`,
`out = advice[0]@next`. -/
def add_gate : GateExpr :=
  .mul .sel (.sub (.add (.advice 0 .cur) (.advice 1 .cur)) (.advice 0 .next))

/-- The `decompose` gate polynomial
`s_decompose * (lhs + Constant(2) * rhs - out)` (src/main.rs:120-132). -/
def decompose_gate : GateExpr :=
  .mul .sel (.sub (.add (.advice 0 .cur) (.mul (.const 2) (.advice 1 .cur))) (.advice 0 .next))

/-- The `compose` gate polynomial
`s_compose * (lhs + Constant(2) * rhs - out)` (src/main.rs:134-146). -/
def compose_gate : GateExpr :=
  .mul .sel (.sub (.add (.advice 0 .cur) (.mul (.const 2) (.advice 1 .cur))) (.advice 0 .next))

/-- Input expression of the first lookup argument,
`s_decompose * advice[0]@cur` (src/main.rs:148-153). -/
def lookup_even_input : GateExpr := .mul .sel (.advice 0 .cur)

/-- Input expression of the second lookup argument,
`s_decompose * advice[1]@cur` (src/main.rs:155-160). -/
def lookup_odd_input : GateExpr := .mul .sel (.advice 1 .cur)

/-- Row view of a two-row region with the enabling selector on: `x` in
`advice[0]` and `y` in `advice[1]` at offset 0, `z` in `advice[0]` at
offset 1. -/
def regionEnv (x y z : Nat) : RegionEnv where
  sel := 1
  adv := fun i r =>
    match i, r with
    | 0, .cur => x
    | 1, .cur => y
    | 0, .next => z
    | _, _ => 0

/-- A gate constraint is satisfied at a row when its polynomial evaluates
to zero in the field. -/
def gateOk (env : RegionEnv) (g : GateExpr) : Bool := (evalGE env g) % (P : Int) == 0

/-- A lookup argument is satisfied at a row when the field value of its
input expression is a member of the `even_bits` table. -/
def lookupOk (env : RegionEnv) (e : GateExpr) : Bool :=
  inTable ((evalGE env e) % (P : Int)).toNat

/-- Constraints contributed by one `verify_decompose` region
(src/main.rs:298-340): `even` in `advice[0]`, `odd` in `advice[1]`, the
input `c` copied into `advice[0]` at the next row; the `decompose` gate and
both lookup arguments fire because `s_decompose` is enabled at offset 0. -/
def decomposeRegionOk (even odd c : Nat) : Bool :=
  gateOk (regionEnv even odd c) decompose_gate &&
  lookupOk (regionEnv even odd c) lookup_even_input &&
  lookupOk (regionEnv even odd c) lookup_odd_input

/-- Constraint contributed by one `add` region (src/main.rs:257-296). -/
def addRegionOk (x y out : Nat) : Bool := gateOk (regionEnv x y out) add_gate

/-- Constraint contributed by one `compose` region (src/main.rs:342-370). -/
def composeRegionOk (x y out : Nat) : Bool := gateOk (regionEnv x y out) compose_gate

/-- One value per equality class of cells of the nine regions laid down by
`MyCircuit::synthesize` (src/main.rs:419-466), plus the single public
input; copy constraints are reflected by sharing a field between the
regions that constrain the same class. -/
structure Assignment where
  a : Nat
  b : Nat
  ae : Nat
  ao : Nat
  be : Nat
  bo : Nat
  e : Nat
  o : Nat
  ee : Nat
  eo : Nat
  oe : Nat
  oo : Nat
  res : Nat
  pub : Nat

/-- All cells hold canonical field representatives. -/
def Canonical (s : Assignment) : Prop :=
  s.a < P ∧ s.b < P ∧ s.ae < P ∧ s.ao < P ∧ s.be < P ∧ s.bo < P ∧ s.e < P ∧
  s.o < P ∧ s.ee < P ∧ s.eo < P ∧ s.oe < P ∧ s.oo < P ∧ s.res < P ∧ s.pub < P

/-- Global satisfiability check of the mock prover on an assignment of the
fixed pipeline: every selector-enabled gate row, every lookup row, and the
instance equality `expose_public(a_and_b, 0)` binding the composed result
to the public input at row 0. -/
def globalOk (s : Assignment) : Bool :=
  decomposeRegionOk s.ae s.ao s.a &&
  decomposeRegionOk s.be s.bo s.b &&
  addRegionOk s.ae s.be s.e &&
  addRegionOk s.ao s.bo s.o &&
  decomposeRegionOk s.ee s.eo s.e &&
  decomposeRegionOk s.oe s.oo s.o &&
  composeRegionOk s.eo s.oo s.res &&
  (s.res == s.pub)

/-- The assignment produced by running `MyCircuit::synthesize` with private
inputs `a`, `b` present and public input `pub`: every cell holds the value
computed by the corresponding witness closure. -/
def honestAssignment (a b pub : Nat) : Assignment where
  a := a
  b := b
  ae := decomposeE a
  ao := decomposeO a
  be := decomposeE b
  bo := decomposeO b
  e := fadd (decomposeE a) (decomposeE b)
  o := fadd (decomposeO a) (decomposeO b)
  ee := decomposeE (fadd (decomposeE a) (decomposeE b))
  eo := decomposeO (fadd (decomposeE a) (decomposeE b))
  oe := decomposeE (fadd (decomposeO a) (decomposeO b))
  oo := decomposeO (fadd (decomposeO a) (decomposeO b))
  res := composeVal (decomposeO (fadd (decomposeE a) (decomposeE b)))
    (decomposeO (fadd (decomposeO a) (decomposeO b)))
  pub := pub

/-- The outcome of `MockProver::run(..).verify()` on the circuit with
private inputs `a`, `b` and public input vector `[pub]`. -/
def accepts (a b pub : Nat) : Bool := globalOk (honestAssignment a b pub)

/-- Error raised by a gadget operation when a concrete witness value is
required but absent (`Error::Synthesis`, the value of
`value.ok_or(Error::Synthesis)` on `None`).  Constraint violations are
never represented here: they surface only as `globalOk = false`. -/
inductive SynthErr where
  | Synthesis : SynthErr
deriving DecidableEq

/-- Assigning a cell during a value-requiring pass: the witness closure
returns `value.ok_or(Error::Synthesis)`, so assignment succeeds with the
value exactly when one is present. -/
def assignAdvice (v : Option Nat) : Except SynthErr (Option Nat) :=
  match v with
  | some x => .ok (some x)
  | none => .error .Synthesis

namespace AndChip

/-- `load_private` (src/main.rs:235-255): assign the optional private input
into a fresh cell. -/
def load_private (value : Option Nat) : Except SynthErr (Option Nat) :=
  assignAdvice value

/-- `add` (src/main.rs:257-296): witness flow of the output assignment
`a.value().and_then(|a| b.value().map(|b| *a + *b))`. -/
def add (a b : Option Nat) : Except SynthErr (Option Nat) :=
  assignAdvice (a.bind fun x => b.map fun y => fadd x y)

/-- `verify_decompose` (src/main.rs:298-340): witness flow of the two output
assignments `o_oe.map(|oe| oe.0)` and `o_oe.map(|oe| oe.1)` where
`o_oe = c.value().map(|c| decompose(*c))`. -/
def verify_decompose (c : Option Nat) : Except SynthErr (Option Nat × Option Nat) := do
  let o_oe := c.map fun x => (decomposeE x, decomposeO x)
  let e_cell ← assignAdvice (o_oe.map Prod.fst)
  let o_cell ← assignAdvice (o_oe.map Prod.snd)
  pure (e_cell, o_cell)

/-- `compose` (src/main.rs:342-370): witness flow of the output assignment
`a.value().and_then(|a| b.value().map(|b| *a + Fp::from(2) * *b))`. -/
def compose (a b : Option Nat) : Except SynthErr (Option Nat) :=
  assignAdvice (a.bind fun x => b.map fun y => composeVal x y)

/-- `expose_public` (src/main.rs:372-382): `constrain_instance` declares an
equality constraint and assigns no cell, so it never fails for want of a
witness. -/
def expose_public (_num : Option Nat) (_row : Nat) : Except SynthErr Unit :=
  .ok ()

/-- Witness flow of `MyCircuit::synthesize` (src/main.rs:419-466): the fixed
pipeline load `a`, load `b`, decompose each, add evens, add odds, decompose
each sum, compose, expose. -/
def synthesize (oa ob : Option Nat) : Except SynthErr Unit := do
  let a ← load_private oa
  let b ← load_private ob
  let (ae, ao) ← verify_decompose a
  let (be, bo) ← verify_decompose b
  let e ← add ae be
  let o ← add ao bo
  let (_ee, eo) ← verify_decompose e
  let (_oe, oo) ← verify_decompose o
  let a_and_b ← compose eo oo
  expose_public a_and_b 0

end AndChip

/-! Helper lemmas.  The byte-level facts are finite checks: every value that
reaches a `decompose` region in the 8-bit pipeline is below 256, and the
cross-term behaviour of a sum of two table entries only depends on the
16 × 16 possible pairs of entries. -/

theorem lt_P_of_lt_256 {x : Nat} (h : x < 256) : x < P :=
  lt_trans h (by norm_num [P])

set_option maxRecDepth 4096 in
theorem decomposeE_byte : ∀ x, x < 256 → decomposeE x = x &&& 85 := by decide

set_option maxRecDepth 4096 in
theorem decomposeO_byte : ∀ x, x < 256 → decomposeO x = (x &&& 170) >>> 1 := by decide

set_option maxRecDepth 4096 in
theorem byte_split : ∀ x, x < 256 → (x &&& 85) + 2 * ((x &&& 170) >>> 1) = x := by decide

set_option maxRecDepth 4096 in
theorem byte_lookups : ∀ x, x < 256 →
    inTable (x &&& 85) = true ∧ inTable ((x &&& 170) >>> 1) = true := by decide

theorem spread_le_85 : ∀ i, i < 16 → even_bits_at i ≤ 85 := by decide

theorem spread_add_odd : ∀ i, i < 16 → ∀ j, j < 16 →
    ((even_bits_at i + even_bits_at j) &&& 170) >>> 1 =
      even_bits_at i &&& even_bits_at j := by decide

theorem inTable_iff {v : Nat} : inTable v = true ↔ ∃ i, i < 16 ∧ even_bits_at i = v := by
  simp [inTable, even_bits_table, List.contains_iff_exists_mem_beq, List.mem_map,
    List.mem_range, WORD_BITS]

theorem inTable_le_85 {v : Nat} (h : inTable v = true) : v ≤ 85 := by
  obtain ⟨i, hi, rfl⟩ := inTable_iff.mp h
  exact spread_le_85 i hi

theorem shiftRight_one_land (x y : Nat) : (x >>> 1) &&& (y >>> 1) = (x &&& y) >>> 1 :=
  Nat.eq_of_testBit_eq fun i => by simp

theorem land_mask_mask (x y m : Nat) : (x &&& m) &&& (y &&& m) = (x &&& y) &&& m :=
  Nat.eq_of_testBit_eq fun i => by
    simp only [Nat.testBit_and]
    cases x.testBit i <;> cases y.testBit i <;> cases m.testBit i <;> rfl

theorem decompose_gateOk_iff (x y z : Nat) (hz : z < P) :
    gateOk (regionEnv x y z) decompose_gate = true ↔ (x + 2 * y) % P = z := by
  simp only [gateOk, decompose_gate, evalGE, regionEnv, beq_iff_eq, Nat.cast_one,
    Nat.cast_ofNat, one_mul]
  unfold P at *
  omega

theorem compose_gateOk_iff (x y z : Nat) (hz : z < P) :
    gateOk (regionEnv x y z) compose_gate = true ↔ (x + 2 * y) % P = z := by
  simp only [gateOk, compose_gate, evalGE, regionEnv, beq_iff_eq, Nat.cast_one,
    Nat.cast_ofNat, one_mul]
  unfold P at *
  omega

theorem add_gateOk_iff (x y z : Nat) (hz : z < P) :
    gateOk (regionEnv x y z) add_gate = true ↔ (x + y) % P = z := by
  simp only [gateOk, add_gate, evalGE, regionEnv, beq_iff_eq, Nat.cast_one, one_mul]
  unfold P at *
  omega

theorem lookup_even_ok (x y z : Nat) (hx : x < P) :
    lookupOk (regionEnv x y z) lookup_even_input = inTable x := by
  have hcast : ((1 * (x : Int)) % ((P : Nat) : Int)).toNat = x := by
    unfold P at *
    omega
  simp only [lookupOk, lookup_even_input, evalGE, regionEnv, Nat.cast_one, hcast]

theorem lookup_odd_ok (x y z : Nat) (hy : y < P) :
    lookupOk (regionEnv x y z) lookup_odd_input = inTable y := by
  have hcast : ((1 * (y : Int)) % ((P : Nat) : Int)).toNat = y := by
    unfold P at *
    omega
  simp only [lookupOk, lookup_odd_input, evalGE, regionEnv, Nat.cast_one, hcast]

theorem decomposeRegionOk_iff (x y z : Nat) (hx : x < P) (hy : y < P) (hz : z < P) :
    decomposeRegionOk x y z = true ↔
      ((x + 2 * y) % P = z ∧ inTable x = true ∧ inTable y = true) := by
  simp only [decomposeRegionOk, Bool.and_eq_true, decompose_gateOk_iff x y z hz,
    lookup_even_ok x y z hx, lookup_odd_ok x y z hy, and_assoc]

theorem addRegionOk_iff (x y z : Nat) (hz : z < P) :
    addRegionOk x y z = true ↔ (x + y) % P = z :=
  add_gateOk_iff x y z hz

theorem composeRegionOk_iff (x y z : Nat) (hz : z < P) :
    composeRegionOk x y z = true ↔ (x + 2 * y) % P = z :=
  compose_gateOk_iff x y z hz

theorem P_pos : 0 < P := by norm_num [P]

theorem decomposeE_le {x : Nat} (hx : x < 256) : decomposeE x ≤ 85 := by
  rw [decomposeE_byte x hx]
  exact Nat.and_le_right

theorem inTable_decomposeE {x : Nat} (hx : x < 256) : inTable (decomposeE x) = true := by
  rw [decomposeE_byte x hx]
  exact (byte_lookups x hx).1

theorem inTable_decomposeO {x : Nat} (hx : x < 256) : inTable (decomposeO x) = true := by
  rw [decomposeO_byte x hx]
  exact (byte_lookups x hx).2

/-- Witness values of a `verify_decompose` region satisfy every constraint the
region declares, whenever the decomposed value is a byte. -/
theorem decomposeRegion_honest (x : Nat) (hx : x < 256) :
    decomposeRegionOk (decomposeE x) (decomposeO x) x = true := by
  have h1 : decomposeE x < P := lt_P_of_lt_256 (lt_of_le_of_lt (decomposeE_le hx) (by omega))
  have h2 : decomposeO x < P :=
    lt_P_of_lt_256 (lt_of_le_of_lt (inTable_le_85 (inTable_decomposeO hx)) (by omega))
  rw [decomposeRegionOk_iff _ _ _ h1 h2 (lt_P_of_lt_256 hx)]
  refine ⟨?_, inTable_decomposeE hx, inTable_decomposeO hx⟩
  rw [decomposeE_byte x hx, decomposeO_byte x hx, byte_split x hx]
  exact Nat.mod_eq_of_lt (lt_P_of_lt_256 hx)

/-- Witness value of an `add` region satisfies its gate. -/
theorem addRegion_honest (x y : Nat) : addRegionOk x y (fadd x y) = true :=
  (addRegionOk_iff x y _ (Nat.mod_lt _ P_pos)).mpr rfl

/-- Witness value of a `compose` region satisfies its gate. -/
theorem composeRegion_honest (x y : Nat) : composeRegionOk x y (composeVal x y) = true :=
  (composeRegionOk_iff x y _ (Nat.mod_lt _ P_pos)).mpr rfl

/-- Key cross-term fact: decomposing the field sum of two table entries
yields, as its odd component, exactly the bitwise AND of the entries. -/
theorem honest_eo {x y : Nat} (hx : inTable x = true) (hy : inTable y = true) :
    decomposeO (fadd x y) = x &&& y := by
  obtain ⟨i, hi, rfl⟩ := inTable_iff.mp hx
  obtain ⟨j, hj, rfl⟩ := inTable_iff.mp hy
  have h256 : even_bits_at i + even_bits_at j < 256 := by
    have := spread_le_85 i hi
    have := spread_le_85 j hj
    omega
  have hfe : fadd (even_bits_at i) (even_bits_at j) = even_bits_at i + even_bits_at j :=
    Nat.mod_eq_of_lt (lt_P_of_lt_256 h256)
  rw [hfe, decomposeO_byte _ h256, spread_add_odd i hi j hj]

/-- C1: for all private inputs `a, b` in `[0, 2^WORD_BITS)`, synthesizing the
fixed pipeline and checking it accepts exactly when the single public input
at row 0 equals `a AND b`; any other public input is rejected. -/
theorem and_circuit_accepts_iff (a b pub : Nat)
    (ha : a < 2 ^ WORD_BITS) (hb : b < 2 ^ WORD_BITS) (hpub : pub < P) :
    accepts a b pub = true ↔ pub = a &&& b := by
  have hw : (2 : Nat) ^ WORD_BITS = 256 := by norm_num [WORD_BITS]
  rw [hw] at ha hb
  have htae := inTable_decomposeE ha
  have htao := inTable_decomposeO ha
  have htbe := inTable_decomposeE hb
  have htbo := inTable_decomposeO hb
  have he256 : fadd (decomposeE a) (decomposeE b) < 256 := by
    have h1 := inTable_le_85 htae
    have h2 := inTable_le_85 htbe
    exact lt_of_le_of_lt (Nat.mod_le _ _) (by omega)
  have ho256 : fadd (decomposeO a) (decomposeO b) < 256 := by
    have h1 := inTable_le_85 htao
    have h2 := inTable_le_85 htbo
    exact lt_of_le_of_lt (Nat.mod_le _ _) (by omega)
  have heo := honest_eo htae htbe
  have hoo := honest_eo htao htbo
  have hA1 := decomposeRegion_honest a ha
  have hA2 := decomposeRegion_honest b hb
  have hA3 := addRegion_honest (decomposeE a) (decomposeE b)
  have hA4 := addRegion_honest (decomposeO a) (decomposeO b)
  have hA5 := decomposeRegion_honest _ he256
  have hA6 := decomposeRegion_honest _ ho256
  have hA7 := composeRegion_honest (decomposeO (fadd (decomposeE a) (decomposeE b)))
    (decomposeO (fadd (decomposeO a) (decomposeO b)))
  have hand256 : a &&& b < 256 := lt_of_le_of_lt Nat.and_le_left ha
  have hres : composeVal (decomposeO (fadd (decomposeE a) (decomposeE b)))
      (decomposeO (fadd (decomposeO a) (decomposeO b))) = a &&& b := by
    rw [heo, hoo, decomposeE_byte a ha, decomposeE_byte b hb, decomposeO_byte a ha,
      decomposeO_byte b hb, land_mask_mask, shiftRight_one_land, land_mask_mask]
    simp only [composeVal]
    rw [byte_split (a &&& b) hand256]
    exact Nat.mod_eq_of_lt (lt_P_of_lt_256 hand256)
  rw [hres] at hA7
  simp only [accepts, globalOk, honestAssignment, hA1, hA2, hA3, hA4, hA5, hA6, hA7,
    Bool.true_and, beq_iff_eq, hres]
  exact eq_comm

theorem decompose_eq {w : Nat} (hw : w < P) :
    decompose w = some (decomposeE w, decomposeO w) := by
  have h1 : w &&& EVEN_MASK < P := lt_of_le_of_lt Nat.and_le_left hw
  have h2 : w &&& ODD_MASK < P := lt_of_le_of_lt Nat.and_le_left hw
  simp only [decompose, from_repr]
  rw [if_pos h1, if_pos h2]
  rfl

theorem decompose_sum_byte {x : Nat} (hx : x < 256) :
    (decomposeE x + 2 * decomposeO x) % P = x := by
  rw [decomposeE_byte x hx, decomposeO_byte x hx, byte_split x hx]
  exact Nat.mod_eq_of_lt (lt_P_of_lt_256 hx)

/-- C2: every decompose region declares the selector-gated constraint
`c = even + 2·odd` between its input cell and its two output cells, plus a
SpreadTable lookup on each of the two output cells; and the witness values
assigned by `verify_decompose` satisfy all of it. -/
theorem verify_decompose_region_spec (c e o : Nat) (hc : c < 2 ^ WORD_BITS)
    (hdec : decompose c = some (e, o)) :
    (∀ x y z, z < P →
      (gateOk (regionEnv x y z) decompose_gate = true ↔ (x + 2 * y) % P = z)) ∧
    (∀ x y z, x < P → lookupOk (regionEnv x y z) lookup_even_input = inTable x) ∧
    (∀ x y z, y < P → lookupOk (regionEnv x y z) lookup_odd_input = inTable y) ∧
    decomposeRegionOk e o c = true ∧ (e + 2 * o) % P = c := by
  have hc' : c < 256 := by
    have hw : (2 : Nat) ^ WORD_BITS = 256 := by norm_num [WORD_BITS]
    omega
  rw [decompose_eq (lt_P_of_lt_256 hc')] at hdec
  simp only [Option.some.injEq, Prod.mk.injEq] at hdec
  obtain ⟨he, ho⟩ := hdec
  subst he ho
  exact ⟨decompose_gateOk_iff, lookup_even_ok, lookup_odd_ok,
    decomposeRegion_honest c hc', decompose_sum_byte hc'⟩

/-- Witness for C2 at `c = 7`: `decompose 7 = (5, 1)` and the region
constraints hold. -/
theorem verify_decompose_region_spec_witness :
    decomposeRegionOk 5 1 7 = true ∧ (5 + 2 * 1) % P = 7 :=
  ⟨(verify_decompose_region_spec 7 5 1 (by decide) (by decide)).2.2.2.1,
   (verify_decompose_region_spec 7 5 1 (by decide) (by decide)).2.2.2.2⟩

/-- C3: an assignment in which any decompose region's even or odd output
cell is not a SpreadTable member is rejected by the global
constraint-satisfiability check, regardless of the gate equations. -/
theorem lookup_soundness (s : Assignment) (hcan : Canonical s)
    (hbad : inTable s.ae = false ∨ inTable s.ao = false ∨ inTable s.be = false ∨
      inTable s.bo = false ∨ inTable s.ee = false ∨ inTable s.eo = false ∨
      inTable s.oe = false ∨ inTable s.oo = false) :
    globalOk s = false := by
  obtain ⟨h1, h2, h3, h4, h5, h6, h7, h8, h9, h10, h11, h12, h13, h14⟩ := hcan
  by_contra hg
  rw [Bool.not_eq_false] at hg
  simp only [globalOk, Bool.and_eq_true] at hg
  obtain ⟨⟨⟨⟨⟨⟨⟨hd1, hd2⟩, ha1⟩, ha2⟩, hd3⟩, hd4⟩, hc1⟩, hinst⟩ := hg
  obtain ⟨-, ht1, ht2⟩ := (decomposeRegionOk_iff _ _ _ h3 h4 h1).mp hd1
  obtain ⟨-, ht3, ht4⟩ := (decomposeRegionOk_iff _ _ _ h5 h6 h2).mp hd2
  obtain ⟨-, ht5, ht6⟩ := (decomposeRegionOk_iff _ _ _ h9 h10 h7).mp hd3
  obtain ⟨-, ht7, ht8⟩ := (decomposeRegionOk_iff _ _ _ h11 h12 h8).mp hd4
  rcases hbad with h | h | h | h | h | h | h | h <;> simp_all

/-- Witness for C3: the assignment putting `even = 2` (a value with digit
slot 0 equal to 2, not a table member) with `c = 2`, `odd = 0` satisfies
the linear relation `c = even + 2·odd` yet is rejected. -/
theorem lookup_soundness_witness :
    globalOk { a := 2, b := 0, ae := 2, ao := 0, be := 0, bo := 0, e := 0, o := 0,
               ee := 0, eo := 0, oe := 0, oo := 0, res := 0, pub := 0 } = false :=
  lookup_soundness _ (by constructor <;> norm_num [P]) (Or.inl (by decide))

/-- C4: for every `WORD_BITS`-wide word `x`, composing the two components
returned by the `decompose` witness function gives back `x`:
`compose(decompose(x)) == x`. -/
theorem compose_decompose_roundtrip (x : Nat) (hx : x < 2 ^ WORD_BITS) :
    ∃ e o, decompose x = some (e, o) ∧ composeVal e o = x := by
  have hx' : x < 256 := by
    have hw : (2 : Nat) ^ WORD_BITS = 256 := by norm_num [WORD_BITS]
    omega
  refine ⟨decomposeE x, decomposeO x, decompose_eq (lt_P_of_lt_256 hx'), ?_⟩
  simp only [composeVal]
  exact decompose_sum_byte hx'

/-- Witness for C4 at `x = 6`. -/
theorem compose_decompose_roundtrip_witness :
    ∃ e o, decompose 6 = some (e, o) ∧ composeVal e o = 6 :=
  compose_decompose_roundtrip 6 (by decide)

/-- C5: gadget operations invoked with an absent value during a
value-requiring pass return the witness-absence error `Error::Synthesis`
(a synthesis error, never a constraint violation, which is only ever
reported by the separate satisfiability check `globalOk`), and the
synthesize pass aborts at that point with the same error, producing no
assignment for any constraint check to inspect. -/
theorem witness_absence_aborts :
    AndChip.load_private none = .error .Synthesis ∧
    (∀ w, AndChip.add none w = .error .Synthesis) ∧
    (∀ w, AndChip.add w none = .error .Synthesis) ∧
    AndChip.verify_decompose none = .error .Synthesis ∧
    (∀ w, AndChip.compose none w = .error .Synthesis) ∧
    (∀ w, AndChip.compose w none = .error .Synthesis) ∧
    (∀ ob, AndChip.synthesize none ob = .error .Synthesis) ∧
    (∀ oa, AndChip.synthesize oa none = .error .Synthesis) := by
  refine ⟨rfl, fun w => rfl, fun w => ?_, rfl, fun w => rfl, fun w => ?_,
    fun ob => rfl, fun oa => ?_⟩
  · cases w <;> rfl
  · cases w <;> rfl
  · cases oa <;> rfl

/-- Witness for C1 at `a = 3`, `b = 4` (so `a AND b = 0`). -/
theorem and_circuit_accepts_iff_witness : accepts 3 4 0 = true :=
  (and_circuit_accepts_iff 3 4 0 (by decide) (by decide) (by decide)).mpr (by decide)

theorem spread_testBit_low : ∀ i, i < 16 → ∀ k, k < 4 →
    (even_bits_at i).testBit (2 * k) = i.testBit k ∧
    (even_bits_at i).testBit (2 * k + 1) = false := by decide

/-- C6: `even_bits_at` places binary digit `k` of `i` at bit position `2k`
of the result and leaves every odd bit position zero; in particular
`spread(0)=0b0`, `spread(1)=0b1`, `spread(2)=0b100`, `spread(3)=0b101`. -/
theorem even_bits_at_spec (i : Nat) (hi : i < 2 ^ (WORD_BITS / 2)) :
    (∀ k, (even_bits_at i).testBit (2 * k) = i.testBit k ∧
      (even_bits_at i).testBit (2 * k + 1) = false) ∧
    even_bits_at 0 = 0 ∧ even_bits_at 1 = 1 ∧
    even_bits_at 2 = 4 ∧ even_bits_at 3 = 5 := by
  have hi' : i < 16 := by
    have hw : (2 : Nat) ^ (WORD_BITS / 2) = 16 := by norm_num [WORD_BITS]
    omega
  refine ⟨fun k => ?_, by decide, by decide, by decide, by decide⟩
  by_cases hk : k < 4
  · exact spread_testBit_low i hi' k hk
  · push_neg at hk
    have hsp : even_bits_at i ≤ 85 := spread_le_85 i hi'
    have hpow : (256 : Nat) ≤ 2 ^ (2 * k) := by
      calc (256 : Nat) = 2 ^ 8 := by norm_num
        _ ≤ 2 ^ (2 * k) := Nat.pow_le_pow_right (by omega) (by omega)
    have hpow' : (256 : Nat) ≤ 2 ^ (2 * k + 1) := by
      calc (256 : Nat) = 2 ^ 8 := by norm_num
        _ ≤ 2 ^ (2 * k + 1) := Nat.pow_le_pow_right (by omega) (by omega)
    have hik : (16 : Nat) ≤ 2 ^ k := by
      calc (16 : Nat) = 2 ^ 4 := by norm_num
        _ ≤ 2 ^ k := Nat.pow_le_pow_right (by omega) hk
    rw [Nat.testBit_lt_two_pow (by omega), Nat.testBit_lt_two_pow (by omega),
      Nat.testBit_lt_two_pow (by omega)]
    exact ⟨rfl, rfl⟩

/-- Witness for C6 at `i = 3`, `k = 0`. -/
theorem even_bits_at_spec_witness :
    (even_bits_at 3).testBit (2 * 0) = (3 : Nat).testBit 0 ∧
    (even_bits_at 3).testBit (2 * 0 + 1) = false :=
  (even_bits_at_spec 3 (by decide)).1 0

theorem spread_mono_decide : ∀ i, i < 16 → ∀ j, j < 16 → i < j →
    even_bits_at i < even_bits_at j := by decide

/-- C7: `even_bits_at` is strictly increasing on `[0, 2^(WORD_BITS/2))` and
therefore injective on that range. -/
theorem even_bits_at_strictMono (i j : Nat) (hij : i < j) (hj : j < 2 ^ (WORD_BITS / 2)) :
    even_bits_at i < even_bits_at j ∧
    (∀ p q, p < 2 ^ (WORD_BITS / 2) → q < 2 ^ (WORD_BITS / 2) →
      even_bits_at p = even_bits_at q → p = q) := by
  have hw : (2 : Nat) ^ (WORD_BITS / 2) = 16 := by norm_num [WORD_BITS]
  rw [hw] at hj
  constructor
  · exact spread_mono_decide i (by omega) j hj hij
  · intro p q hp hq hpq
    rw [hw] at hp hq
    rcases Nat.lt_trichotomy p q with h | h | h
    · exact absurd hpq (Nat.ne_of_lt (spread_mono_decide p hp q hq h))
    · exact h
    · exact absurd hpq.symm (Nat.ne_of_lt (spread_mono_decide q hq p hp h))

/-- Witness for C7 at `i = 1`, `j = 2`. -/
theorem even_bits_at_strictMono_witness : even_bits_at 1 < even_bits_at 2 :=
  (even_bits_at_strictMono 1 2 (by decide) (by decide)).1

/-- C8: the table built by `alloc_table` has exactly `2^(WORD_BITS/2)`
entries, entry `i` holding `even_bits_at i`; the table is a fixed pure
value, built from the deterministic enumeration `0..2^(WORD_BITS/2)-1`. -/
theorem alloc_table_spec :
    even_bits_table.length = 2 ^ (WORD_BITS / 2) ∧
    ∀ i (h : i < even_bits_table.length), even_bits_table.get ⟨i, h⟩ = even_bits_at i := by
  constructor
  · simp [even_bits_table]
  · intro i h
    simp [even_bits_table]

/-- C9: `decompose` never panics on a canonical field element: both masked
byte representations convert back with `from_repr` successfully, because
clearing bits of a below-modulus value keeps it below the modulus. -/
theorem decompose_no_panic (w : Nat) (hw : w < P) : ∃ pr, decompose w = some pr :=
  ⟨(decomposeE w, decomposeO w), decompose_eq hw⟩

/-- Witness for C9 at `w = 5`. -/
theorem decompose_no_panic_witness : ∃ pr, decompose 5 = some pr :=
  decompose_no_panic 5 (by decide)

/-- C10: on inputs below `2^128` the decompose witness function returns
exactly the 0x55-masked value and the 0xAA-masked value shifted right by
one; the truncation to the low 128 bits is vacuous there. -/
theorem decompose_low128_exact (x : Nat) (hx : x < 2 ^ 128) :
    decompose x = some (x &&& EVEN_MASK, (x &&& ODD_MASK) >>> 1) := by
  have hxP : x < P := lt_of_lt_of_le hx (by norm_num [P])
  rw [decompose_eq hxP]
  have hlo : get_lower_128 (x &&& ODD_MASK) = x &&& ODD_MASK :=
    Nat.mod_eq_of_lt (lt_of_le_of_lt Nat.and_le_left hx)
  have hsh : (x &&& ODD_MASK) >>> 1 < P := by
    rw [Nat.shiftRight_eq_div_pow]
    exact lt_of_le_of_lt (le_trans (Nat.div_le_self _ _) Nat.and_le_left) hxP
  simp [decomposeE, decomposeO, hlo, from_u128, Nat.mod_eq_of_lt hsh]

/-- Witness for C10 at `x = 0xAAAA`: the components are `(0, 0x5555)`. -/
theorem decompose_low128_exact_witness :
    decompose 0xAAAA = some (0xAAAA &&& EVEN_MASK, (0xAAAA &&& ODD_MASK) >>> 1) :=
  decompose_low128_exact 0xAAAA (by norm_num)

/-- Witness for C5: the proving pass with `a` absent and `b = 4` present
aborts with the witness-absence error. -/
theorem witness_absence_aborts_witness :
    AndChip.synthesize none (some 4) = .error .Synthesis :=
  witness_absence_aborts.2.2.2.2.2.2.1 (some 4)

/-- Witness for C8: the table has 16 entries and entry 2 holds
`even_bits_at 2 = 4`. -/
theorem alloc_table_spec_witness :
    even_bits_table.length = 2 ^ (WORD_BITS / 2) ∧
    even_bits_table.get ⟨2, by decide⟩ = even_bits_at 2 :=
  ⟨alloc_table_spec.1, alloc_table_spec.2 2 (by decide)⟩
